import Mathlib

/-!
# Verification of the Arabic spell checker core (`src/main.py`, class `ArabicSpellChecker`)

A shallow embedding of the checker. Text is modelled as `List Char` (Python
strings are sequences of Unicode code points). Scores are modelled as exact
rationals `ℚ` (the Python source computes them from the literals 0.4, 0.2, 0.3
and divisions; the algebraic structure of the scoring formula is what the spec
describes). The `Levenshtein.distance` library call in the source is modelled
by Mathlib's `levenshtein Levenshtein.defaultCost`, the classic unit-cost
Levenshtein distance. Python's set membership tests are modelled by decidable
list membership, and the stable `list.sort` by the stable `List.insertionSort`.
-/

namespace SpellChecker

/-- A character in the Arabic diacritic code-point range U+064B–U+065F
(the range of the regex `[ً-ٟ]` in `remove_diacritics`). -/
def isDiacritic (c : Char) : Bool := 0x64B ≤ c.toNat && c.toNat ≤ 0x65F

/-- `remove_diacritics` (main.py lines 22-24): `re.sub(r'[ً-ٟ]', '', text)`,
i.e. drop every character in the diacritic range. -/
def remove_diacritics (text : List Char) : List Char :=
  text.filter (fun c => !(isDiacritic c))

/-- Python `str.replace(a, b)` for single-character `a` and `b`: replace every
occurrence of the character `a` by `b`. -/
def replaceChar (a b : Char) (text : List Char) : List Char :=
  text.map (fun c => if c = a then b else c)

/-- `normalize_text` (main.py lines 26-33): the five sequential single-character
substitutions ى→ي, ة→ه, أ→ا, إ→ا, آ→ا, in source order. -/
def normalize_text (text : List Char) : List Char :=
  replaceChar 'آ' 'ا'
    (replaceChar 'إ' 'ا'
      (replaceChar 'أ' 'ا'
        (replaceChar 'ة' 'ه'
          (replaceChar 'ى' 'ي' text))))

/-- The action of `normalize_text` on one character: the five substitutions of
main.py lines 28-32 composed in source order. -/
def normChar (c : Char) : Char :=
  let c1 := if c = 'ى' then 'ي' else c
  let c2 := if c1 = 'ة' then 'ه' else c1
  let c3 := if c2 = 'أ' then 'ا' else c2
  let c4 := if c3 = 'إ' then 'ا' else c3
  if c4 = 'آ' then 'ا' else c4

/-- `get_character_groups` (main.py lines 35-48): the fixed list of phonetic
equivalence classes (Python sets of characters; only membership is used, so a
list of lists is a faithful model). -/
def get_character_groups : List (List Char) :=
  [ ['ا', 'أ', 'إ', 'آ'],
    ['ي', 'ى'],
    ['ه', 'ة'],
    ['و', 'ؤ'],
    ['ك', 'گ'],
    ['ت', 'ط'],
    ['س', 'ص'],
    ['د', 'ض'],
    ['ح', 'ه', 'خ'],
    ['ز', 'ذ', 'ظ'] ]

/-- `calculate_phonetic_distance` (main.py lines 50-61): 0 for equal characters,
0.5 at the first group containing both (the loop returns at the first match, so
overlapping groups are not double counted), 1 otherwise. -/
def calculate_phonetic_distance (char1 char2 : Char) : ℚ :=
  if char1 = char2 then 0
  else if get_character_groups.any (fun g => g.contains char1 && g.contains char2) then 1/2
  else 1

/-- `custom_distance` (main.py lines 63-78): base Levenshtein distance plus the
positional phonetic adjustment over indices `i < min(len)` with differing
characters (the `for i in range(min_len)` loop is the sum over the zip of the
two words), clamped at 0 from below. -/
def custom_distance (word1 word2 : List Char) : ℚ :=
  let base_distance : ℕ := levenshtein Levenshtein.defaultCost word1 word2
  let phonetic_adjustment : ℚ :=
    ((word1.zip word2).map
      (fun p => if p.1 ≠ p.2 then calculate_phonetic_distance p.1 p.2 - 1 else 0)).sum
  max 0 ((base_distance : ℚ) + phonetic_adjustment)

/-- The `prefix_length` loop of `get_suggestions` (main.py lines 103-108):
length of the longest common leading run, stopping at the first mismatch. -/
def prefix_run : List Char → List Char → ℕ
  | x :: xs, y :: ys => if x = y then prefix_run xs ys + 1 else 0
  | _, _ => 0

/-- The `suffix_length` loop of `get_suggestions` (main.py lines 110-115): it
compares `word[-i]` with `dict_word[-i]` for `i = 1, 2, ...` and stops at the
first mismatch, i.e. it is the common-leading-run computation on the reversed
words (the `word_len >= i and dict_word_len >= i` guard in the source is
redundant under the loop bound `range(1, min(...) + 1)`). -/
def suffix_run (word dict_word : List Char) : ℕ :=
  prefix_run word.reverse dict_word.reverse

/-- The per-candidate score computed inside the loop of `get_suggestions`
(main.py lines 93-136): length-normalized custom distance, minus the prefix,
suffix and length-ratio bonuses, minus a flat 0.3 when the prefix run is ≥ 3
and the suffix run is ≥ 1. Python's `min`/`max` on ints, and its guards
`if max_len > 0` and `max(word_len, 1)`, are kept exactly. -/
def weighted_score (word dict_word : List Char) : ℚ :=
  let word_len := word.length
  let dict_word_len := dict_word.length
  let adjusted_distance := custom_distance word dict_word
  let max_len : ℕ := max word_len dict_word_len
  let normalized_distance :=
    if max_len > 0 then adjusted_distance / (max_len : ℚ) else adjusted_distance
  let prefix_length := prefix_run word dict_word
  let suffix_length := suffix_run word dict_word
  let prefix_bonus : ℚ :=
    if prefix_length > 1 then (prefix_length : ℚ) / ((max word_len 1 : ℕ) : ℚ) else 0
  let suffix_bonus : ℚ :=
    if suffix_length > 1 then (suffix_length : ℚ) / ((max word_len 1 : ℕ) : ℚ) else 0
  let length_ratio : ℚ :=
    if max_len > 0 then ((min word_len dict_word_len : ℕ) : ℚ) / ((max word_len dict_word_len : ℕ) : ℚ)
    else 0
  let ws :=
    normalized_distance - prefix_bonus * (0.4 : ℚ) - suffix_bonus * (0.2 : ℚ)
      - length_ratio * (0.2 : ℚ)
  if prefix_length ≥ 3 ∧ suffix_length ≥ 1 then ws - (0.3 : ℚ) else ws

/-- The length gate of `get_suggestions` (main.py line 90): `true` when the
candidate is skipped, i.e. `abs(word_len - dict_word_len) > min(3, word_len // 2 + 1)`
(Python `//` is truncating division on naturals, `Nat.div`). -/
def length_gate_skips (word_len dict_word_len : ℕ) : Bool :=
  ((word_len : ℤ) - (dict_word_len : ℤ)).natAbs > min 3 (word_len / 2 + 1)

/-- `get_suggestions` (main.py lines 80-141). The vocabulary `self.word_list`
is a Python set iterated in some fixed order, modelled as a list; the stable
`list.sort(key=lambda x: x[1])` is modelled by the stable `List.insertionSort`
on the score component; `suggestions[:max_suggestions]` is `List.take`. -/
def get_suggestions (word_list : List (List Char)) (word : List Char)
    (max_suggestions : ℕ) : List (List Char) :=
  let word_len := word.length
  let suggestions :=
    (word_list.filter (fun dict_word => !(length_gate_skips word_len dict_word.length))).map
      (fun dict_word => (dict_word, weighted_score word dict_word))
  ((suggestions.insertionSort (fun a b => a.2 ≤ b.2)).take max_suggestions).map Prod.fst

/-- A character in the Arabic script code-point range U+0600–U+06FF (the range
of the regexes `[؀-ۿ]` and `[^؀-ۿ]` in `check_text`). -/
def isArabicChar (c : Char) : Bool := 0x600 ≤ c.toNat && c.toNat ≤ 0x6FF

/-- Python `str.split()` with no argument: split on whitespace runs, discarding
empty pieces. -/
def splitWs (text : List Char) : List (List Char) :=
  (text.splitOnP (fun c => c.isWhitespace)).filter (fun w => !w.isEmpty)

/-- The body of the `for word in words` loop of `check_text` (main.py lines
154-164), with `misspelled` as the accumulated association list: skip tokens
with no Arabic character, strip non-Arabic characters, and record suggestions
for a non-empty clean word absent from the vocabulary. Python dict assignment
with an already-present key overwrites it in place; the suggestions are a
function of the key alone, so re-assignment is a no-op and is modelled by
keeping the existing entry. -/
def check_step (word_list : List (List Char))
    (misspelled : List (List Char × List (List Char))) (word : List Char) :
    List (List Char × List (List Char)) :=
  if word.isEmpty || !(word.any isArabicChar) then misspelled
  else
    let clean_word := word.filter isArabicChar
    if clean_word.isEmpty then misspelled
    else if clean_word ∈ word_list then misspelled
    else if word ∈ misspelled.map Prod.fst then misspelled
    else misspelled ++ [(word, get_suggestions word_list clean_word 3)]

/-- `check_text` (main.py lines 143-166): remove diacritics, normalize, split
into words, and collect suggestions for each unknown Arabic token. The result
dict (insertion-ordered in Python) is modelled as an association list. -/
def check_text (word_list : List (List Char)) (text : List Char) :
    List (List Char × List (List Char)) :=
  let text1 := remove_diacritics text
  let text2 := normalize_text text1
  let words := splitWs text2
  words.foldl (check_step word_list) []

/-- The canonical form a raw vocabulary word is stored under
(`__init__`, main.py line 11: `{self.normalize_text(word) for word in self.word_list}` —
note that `remove_diacritics` is NOT applied on this path). -/
def stored_form (w : List Char) : List Char := normalize_text w

/-- The canonical form a raw query text reaches before membership testing
(`check_text`, main.py lines 146-147: `remove_diacritics` then `normalize_text`). -/
def query_form (w : List Char) : List Char := normalize_text (remove_diacritics w)

/-- The phonetic adjustment as the spec words it (spec §4.3 step 3, claim C2):
the sum over positions `i < min(len)` with differing characters of
`phoneticDistance(word[i], dictWord[i]) − 1`. Stated with indexed access to be
compared against the zip-based loop translation in `custom_distance`. -/
def spec_phonetic_adjustment (word dict_word : List Char) : ℚ :=
  ∑ i ∈ Finset.range (min word.length dict_word.length),
    if word.getD i 'a' ≠ dict_word.getD i 'a' then
      calculate_phonetic_distance (word.getD i 'a') (dict_word.getD i 'a') - 1
    else 0

/-- The weighted score exactly as claim C2 / spec §4.3 steps 4-9 word it:
`normalizedDistance − 0.4·prefixBonus − 0.2·suffixBonus − 0.2·lengthRatio`,
minus a flat 0.3 when `prefixRun ≥ 3` and `suffixRun ≥ 1`, with
`normalizedDistance = max(0, Levenshtein + phoneticAdjustment) / max(lens)`,
`prefixBonus = prefixRun/len(word)` if `prefixRun > 1` else 0 (likewise for the
suffix), and `lengthRatio = min(lens)/max(lens)`. This definition follows the
spec's words; the theorem for C2 compares it with the source translation. -/
def spec_weighted_score (word dict_word : List Char) : ℚ :=
  let normalizedDistance : ℚ :=
    max 0 (((levenshtein Levenshtein.defaultCost word dict_word : ℕ) : ℚ)
        + spec_phonetic_adjustment word dict_word)
      / ((max word.length dict_word.length : ℕ) : ℚ)
  let prefixBonus : ℚ :=
    if prefix_run word dict_word > 1 then (prefix_run word dict_word : ℚ) / (word.length : ℚ)
    else 0
  let suffixBonus : ℚ :=
    if suffix_run word dict_word > 1 then (suffix_run word dict_word : ℚ) / (word.length : ℚ)
    else 0
  let lengthRatio : ℚ :=
    ((min word.length dict_word.length : ℕ) : ℚ) / ((max word.length dict_word.length : ℕ) : ℚ)
  normalizedDistance - (0.4 : ℚ) * prefixBonus - (0.2 : ℚ) * suffixBonus
      - (0.2 : ℚ) * lengthRatio
    - (if prefix_run word dict_word ≥ 3 ∧ suffix_run word dict_word ≥ 1 then (0.3 : ℚ) else 0)

end SpellChecker

attribute [local semireducible] Rat.ofScientific Rat.mul Rat.inv Rat.add Rat.sub

namespace SpellChecker

theorem normalize_text_eq_map (t : List Char) : normalize_text t = t.map normChar := by
  induction t with
  | nil => rfl
  | cons c t ih =>
      have hstep : normalize_text (c :: t) = normChar c :: normalize_text t := rfl
      rw [hstep, ih]
      rfl

theorem normChar_eq_self (c : Char) (h1 : c ≠ 'ى') (h2 : c ≠ 'ة') (h3 : c ≠ 'أ')
    (h4 : c ≠ 'إ') (h5 : c ≠ 'آ') : normChar c = c := by
  simp only [normChar, if_neg h1, if_neg h2, if_neg h3, if_neg h4, if_neg h5]

theorem normChar_idem (c : Char) : normChar (normChar c) = normChar c := by
  by_cases h1 : c = 'ى'
  · subst h1; decide
  by_cases h2 : c = 'ة'
  · subst h2; decide
  by_cases h3 : c = 'أ'
  · subst h3; decide
  by_cases h4 : c = 'إ'
  · subst h4; decide
  by_cases h5 : c = 'آ'
  · subst h5; decide
  have h := normChar_eq_self c h1 h2 h3 h4 h5
  rw [h]
  exact h

theorem map_normChar_idem (s : List Char) :
    (s.map normChar).map normChar = s.map normChar := by
  induction s with
  | nil => rfl
  | cons c t ih => simp only [List.map_cons, normChar_idem, ih]

theorem normChar_not_diacritic (c : Char) (h : isDiacritic c = false) :
    isDiacritic (normChar c) = false := by
  by_cases h1 : c = 'ى'
  · subst h1; decide
  by_cases h2 : c = 'ة'
  · subst h2; decide
  by_cases h3 : c = 'أ'
  · subst h3; decide
  by_cases h4 : c = 'إ'
  · subst h4; decide
  by_cases h5 : c = 'آ'
  · subst h5; decide
  rw [normChar_eq_self c h1 h2 h3 h4 h5]; exact h

theorem mem_remove_diacritics {d : Char} {t : List Char} (hd : d ∈ remove_diacritics t) :
    isDiacritic d = false := by
  unfold remove_diacritics at hd
  have hdd := (List.mem_filter.mp hd).2
  simpa using hdd

theorem remove_diacritics_of_clean (t : List Char) (h : ∀ c ∈ t, isDiacritic c = false) :
    remove_diacritics t = t := by
  unfold remove_diacritics
  exact List.filter_eq_self.mpr (fun c hc => by simp [h c hc])

end SpellChecker

open SpellChecker

/-- C7: applying the full normalization (diacritic removal followed by the
five-entry variant substitution) twice yields the same result as once. -/
theorem C7_normalize_idempotent (text : List Char) :
    query_form (query_form text) = query_form text := by
  unfold query_form
  rw [normalize_text_eq_map (remove_diacritics text)]
  have hclean : ∀ c ∈ (remove_diacritics text).map normChar, isDiacritic c = false := by
    intro c hc
    rcases List.mem_map.mp hc with ⟨d, hd, rfl⟩
    exact normChar_not_diacritic d (mem_remove_diacritics hd)
  rw [remove_diacritics_of_clean _ hclean, normalize_text_eq_map, map_normChar_idem]

/-- C1 (counterexample): the claim fails as stated — the raw word كِتاب (with a
kasra diacritic) is stored unchanged at vocabulary-load time, because `__init__`
applies only `normalize_text`, while the identical raw word arriving as a query
is first stripped of the diacritic, so the two canonical forms differ. -/
theorem C1_vocab_query_symmetry_cex :
    stored_form ['ك', 'ِ', 'ت', 'ا', 'ب'] ≠ query_form ['ك', 'ِ', 'ت', 'ا', 'ب'] := by
  decide

/-- C1 (amended): for every raw word containing no diacritic character, the
canonical form stored at vocabulary load equals the canonical form produced on
the query path, so membership testing compares in the same canonical space. -/
theorem C1_vocab_query_symmetry_amended (w : List Char)
    (h : ∀ c ∈ w, isDiacritic c = false) : stored_form w = query_form w := by
  unfold stored_form query_form
  rw [remove_diacritics_of_clean w h]

theorem C1_vocab_query_symmetry_witness :
    (∀ c ∈ ['ك', 'ت', 'ب'], isDiacritic c = false) ∧
      stored_form ['ك', 'ت', 'ب'] = query_form ['ك', 'ت', 'ب'] :=
  ⟨by decide, C1_vocab_query_symmetry_amended ['ك', 'ت', 'ب'] (by decide)⟩

/-- C4: the phonetic distance of any two characters is 0, 0.5 or 1; it is 0
exactly on equal characters, 0.5 when distinct characters share at least one
equivalence class (with no double counting when they share several), and 1
otherwise, including when a character belongs to no class. -/
theorem C4_phonetic_distance_spec (a b : Char) :
    (calculate_phonetic_distance a b = 0 ∨ calculate_phonetic_distance a b = 1/2 ∨
        calculate_phonetic_distance a b = 1) ∧
      calculate_phonetic_distance a b =
        (if a = b then 0
         else if ∃ g ∈ get_character_groups, a ∈ g ∧ b ∈ g then 1/2 else 1) := by
  constructor
  · unfold calculate_phonetic_distance
    split_ifs <;> simp
  · unfold calculate_phonetic_distance
    by_cases hab : a = b
    · simp [hab]
    · simp only [hab, if_false]
      have hiff : (get_character_groups.any (fun g => g.contains a && g.contains b) = true)
          ↔ (∃ g ∈ get_character_groups, a ∈ g ∧ b ∈ g) := by
        simp [List.any_eq_true]
      by_cases hex : ∃ g ∈ get_character_groups, a ∈ g ∧ b ∈ g
      · simp [hiff.mpr hex, hex]
      · have hna : ¬ (get_character_groups.any (fun g => g.contains a && g.contains b) = true) :=
          fun hc => hex (hiff.mp hc)
        simp [hna, hex]

/-- C9: with the vocabulary {كتاب, كتب, مكتبة} normalized at load time, checking
the single token كتاؾ flags that token and ranks كتاب first among its
suggestions (the full returned mapping is computed exactly). -/
theorem C9_concrete_scenario :
    check_text ([['ك','ت','ا','ب'], ['ك','ت','ب'], ['م','ك','ت','ب','ة']].map stored_form)
        ['ك','ت','ا','ؾ']
      = [(['ك','ت','ا','ؾ'], [['ك','ت','ا','ب'], ['ك','ت','ب'], ['م','ك','ت','ب','ه']])] := by
  decide

namespace SpellChecker

theorem mem_foldl_check_step (vl : List (List Char)) :
    ∀ (ws : List (List Char)) (acc : List (List Char × List (List Char)))
      (p : List Char × List (List Char)),
      p ∈ ws.foldl (check_step vl) acc →
      p ∈ acc ∨ (p.1.any isArabicChar = true ∧ p.1.filter isArabicChar ∉ vl) := by
  intro ws
  induction ws with
  | nil => intro acc p hp; exact Or.inl hp
  | cons w ws ih =>
      intro acc p hp
      have hstep := ih (check_step vl acc w) p hp
      rcases hstep with hmem | hprop
      · simp only [check_step] at hmem
        split_ifs at hmem with hskip hclean hv hdup
        · exact Or.inl hmem
        · exact Or.inl hmem
        · exact Or.inl hmem
        · exact Or.inl hmem
        · rcases List.mem_append.mp hmem with hacc | hnew
          · exact Or.inl hacc
          · have hpw : p = (w, get_suggestions vl (w.filter isArabicChar) 3) := by
              simpa using hnew
            subst hpw
            right
            constructor
            · simp only [Bool.or_eq_true, not_or, Bool.not_eq_true, Bool.not_eq_false,
                Bool.not_eq_true'] at hskip
              simpa using hskip.2
            · exact hv
      · exact Or.inr hprop

end SpellChecker

/-- C3: a token of the normalized input whose cleaned word is present in the
normalized vocabulary never appears in the mapping returned by check — not
even paired with a suggestion list of itself. -/
theorem C3_known_word_omitted (vl : List (List Char)) (text w : List Char)
    (_hw : w ∈ splitWs (normalize_text (remove_diacritics text)))
    (hv : w.filter isArabicChar ∈ vl) :
    ∀ v, (w, v) ∉ check_text vl text := by
  intro v hmem
  have hchar := mem_foldl_check_step vl (splitWs (normalize_text (remove_diacritics text)))
    [] (w, v) hmem
  rcases hchar with h0 | ⟨_, hnv⟩
  · exact List.not_mem_nil _ h0
  · exact hnv hv

theorem C3_known_word_omitted_witness :
    (['ا'] ∈ splitWs (normalize_text (remove_diacritics ['ا']))) ∧
      (List.filter isArabicChar ['ا'] ∈ [['ا']]) ∧
      ∀ v, (['ا'], v) ∉ check_text [['ا']] ['ا'] :=
  ⟨by decide, by decide,
    C3_known_word_omitted [['ا']] ['ا'] ['ا'] (by decide) (by decide)⟩

/-- C8: inputs without Arabic-script characters produce nothing — the empty
text and the pure-punctuation text return an empty mapping, and in general a
whitespace-delimited token of the normalized text with no character in
U+0600–U+06FF contributes no entry to the result. -/
theorem C8_nonscript_tokens (vl : List (List Char)) (text w : List Char) :
    check_text vl [] = [] ∧ check_text vl ['!', '!', '!'] = [] ∧
      (w ∈ splitWs (normalize_text (remove_diacritics text)) →
        w.any isArabicChar = false → ∀ v, (w, v) ∉ check_text vl text) := by
  refine ⟨rfl, rfl, fun _ hna v hmem => ?_⟩
  have hchar := mem_foldl_check_step vl (splitWs (normalize_text (remove_diacritics text)))
    [] (w, v) hmem
  rcases hchar with h0 | ⟨ha, _⟩
  · exact List.not_mem_nil _ h0
  · rw [ha] at hna
    exact absurd hna (by decide)

theorem C8_nonscript_tokens_witness :
    (['a', 'b'] ∈ splitWs (normalize_text (remove_diacritics ['a', 'b']))) ∧
      (List.any ['a', 'b'] isArabicChar = false) ∧
      ∀ v, (['a', 'b'], v) ∉ check_text [] ['a', 'b'] :=
  ⟨by decide, by decide, (C8_nonscript_tokens [] ['a', 'b'] ['a', 'b']).2.2 (by decide) (by decide)⟩


namespace SpellChecker

theorem mem_get_suggestions (vl : List (List Char)) (word : List Char) (k : ℕ)
    (d : List Char) (hd : d ∈ get_suggestions vl word k) :
    d ∈ vl ∧ length_gate_skips word.length d.length = false := by
  simp only [get_suggestions] at hd
  rcases List.mem_map.mp hd with ⟨p, hp, rfl⟩
  have hp2 : p ∈ (vl.filter (fun dw => !(length_gate_skips word.length dw.length))).map
      (fun dw => (dw, weighted_score word dw)) := by
    have hsorted := List.mem_of_mem_take hp
    exact (List.perm_insertionSort (fun a b : List Char × ℚ => a.2 ≤ b.2) _).mem_iff.mp hsorted
  rcases List.mem_map.mp hp2 with ⟨dw, hdw, rfl⟩
  have hfil := List.mem_filter.mp hdw
  refine ⟨hfil.1, by simpa using hfil.2⟩

end SpellChecker

open SpellChecker

/-- C5: for every non-empty query word, no vocabulary word whose length differs
from the query's by more than `min(3, len(word) div 2 + 1)` ever appears in the
suggestion list. -/
theorem C5_length_gate (vl : List (List Char)) (word : List Char) (k : ℕ)
    (_hword : word ≠ []) (d : List Char) (hd : d ∈ get_suggestions vl word k) :
    ((word.length : ℤ) - (d.length : ℤ)).natAbs ≤ min 3 (word.length / 2 + 1) := by
  have hgate := (mem_get_suggestions vl word k d hd).2
  simp only [length_gate_skips, decide_eq_false_iff_not, not_lt] at hgate
  exact hgate

theorem C5_length_gate_witness :
    (['ب'] ≠ ([] : List Char)) ∧ (['ا'] ∈ get_suggestions [['ا']] ['ب'] 1) ∧
      ((([ 'ب'].length : ℤ) - (['ا'].length : ℤ)).natAbs ≤ min 3 (['ب'].length / 2 + 1)) :=
  ⟨by decide, by decide, C5_length_gate [['ا']] ['ب'] 1 (by decide) ['ا'] (by decide)⟩

/-- C6: the suggestion list never exceeds `max_suggestions` entries nor the
vocabulary's size; an empty vocabulary yields the empty list, and so does a
vocabulary every one of whose words is skipped by the length gate. -/
theorem C6_bounded_output (vl : List (List Char)) (word : List Char) (k : ℕ) :
    (get_suggestions vl word k).length ≤ k ∧
      (get_suggestions vl word k).length ≤ vl.length ∧
      (vl = [] → get_suggestions vl word k = []) ∧
      ((∀ d ∈ vl, length_gate_skips word.length d.length = true) →
        get_suggestions vl word k = []) := by
  refine ⟨?_, ?_, ?_, ?_⟩
  · simp only [get_suggestions, List.length_map]
    exact (List.length_take_le _ _)
  · simp only [get_suggestions, List.length_map]
    refine (List.length_take_le' _ _).trans ?_
    rw [List.length_insertionSort, List.length_map]
    exact List.length_filter_le _ _
  · intro h
    subst h
    simp [get_suggestions]
  · intro h
    have hfil : vl.filter (fun dw => !(length_gate_skips word.length dw.length)) = [] := by
      rw [List.filter_eq_nil_iff]
      intro d hd
      simp [h d hd]
    simp [get_suggestions, hfil]

theorem C6_bounded_output_witness :
    ((get_suggestions [] ['ا'] 3).length ≤ 3 ∧
      (get_suggestions [] ['ا'] 3).length ≤ ([] : List (List Char)).length ∧
      get_suggestions [] ['ا'] 3 = []) ∧
      ((∀ d ∈ [['ا', 'ب', 'ج', 'د', 'ه', 'و']], length_gate_skips (['ا'].length) d.length = true) ∧
        get_suggestions [['ا', 'ب', 'ج', 'د', 'ه', 'و']] ['ا'] 3 = []) := by
  have h1 := C6_bounded_output [] ['ا'] 3
  have h2 := C6_bounded_output [['ا', 'ب', 'ج', 'د', 'ه', 'و']] ['ا'] 3
  exact ⟨⟨h1.1, h1.2.1, h1.2.2.1 rfl⟩, ⟨by decide, h2.2.2.2 (by decide)⟩⟩

/-- C10: every suggested word is an element of the (duplicate-free) vocabulary,
and no word occurs twice in the suggestion list. -/
theorem C10_suggestions_subset_nodup (vl : List (List Char)) (word : List Char) (k : ℕ)
    (hvl : vl.Nodup) :
    (∀ d ∈ get_suggestions vl word k, d ∈ vl) ∧ (get_suggestions vl word k).Nodup := by
  constructor
  · intro d hd
    exact (mem_get_suggestions vl word k d hd).1
  · simp only [get_suggestions]
    have hcand : (vl.filter (fun dw => !(length_gate_skips word.length dw.length))).Nodup :=
      hvl.filter _
    have hscored : ((vl.filter (fun dw => !(length_gate_skips word.length dw.length))).map
        (fun dw => (dw, weighted_score word dw))).Nodup := by
      refine hcand.map ?_
      intro a b hab
      exact congrArg Prod.fst hab
    have hperm := List.perm_insertionSort (fun a b : List Char × ℚ => a.2 ≤ b.2)
      ((vl.filter (fun dw => !(length_gate_skips word.length dw.length))).map
        (fun dw => (dw, weighted_score word dw)))
    have hmapsorted : ((((vl.filter (fun dw => !(length_gate_skips word.length dw.length))).map
        (fun dw => (dw, weighted_score word dw))).insertionSort
          (fun a b => a.2 ≤ b.2)).map Prod.fst).Nodup := by
      refine ((hperm.map Prod.fst).nodup_iff).mpr ?_
      rw [List.map_map]
      have hid : (Prod.fst ∘ fun dw => (dw, weighted_score word dw))
          = (fun dw : List Char => dw) := rfl
      rw [hid]
      simpa using hcand
    have hsub : (((((vl.filter (fun dw => !(length_gate_skips word.length dw.length))).map
        (fun dw => (dw, weighted_score word dw))).insertionSort
          (fun a b => a.2 ≤ b.2)).take k).map Prod.fst).Sublist
        ((((vl.filter (fun dw => !(length_gate_skips word.length dw.length))).map
        (fun dw => (dw, weighted_score word dw))).insertionSort
          (fun a b => a.2 ≤ b.2)).map Prod.fst) :=
      (List.take_sublist _ _).map Prod.fst
    exact hsub.nodup hmapsorted

theorem C10_suggestions_subset_nodup_witness :
    ([['ا'], ['ب']] : List (List Char)).Nodup ∧
      ((∀ d ∈ get_suggestions [['ا'], ['ب']] ['ا'] 3, d ∈ [['ا'], ['ب']]) ∧
        (get_suggestions [['ا'], ['ب']] ['ا'] 3).Nodup) :=
  ⟨by decide, C10_suggestions_subset_nodup [['ا'], ['ب']] ['ا'] 3 (by decide)⟩


namespace SpellChecker

theorem phonetic_adjustment_eq : ∀ (w1 w2 : List Char),
    ((w1.zip w2).map
        (fun p => if p.1 ≠ p.2 then calculate_phonetic_distance p.1 p.2 - 1 else 0)).sum
      = spec_phonetic_adjustment w1 w2
  | [], w2 => by simp [spec_phonetic_adjustment]
  | x :: xs, [] => by simp [spec_phonetic_adjustment]
  | x :: xs, y :: ys => by
      have ih := phonetic_adjustment_eq xs ys
      simp only [spec_phonetic_adjustment] at ih ⊢
      rw [List.zip_cons_cons, List.map_cons, List.sum_cons, List.length_cons, List.length_cons,
        Nat.succ_min_succ, Finset.sum_range_succ']
      simp only [List.getD_cons_succ, List.getD_cons_zero]
      rw [ih]
      ring

end SpellChecker

/-- C2: for a non-empty query word and a candidate surviving the length gate,
the score computed per candidate inside `get_suggestions` equals the closed
formula of the spec: the length-normalized phonetically-adjusted Levenshtein
distance minus 0.4·prefixBonus, 0.2·suffixBonus and 0.2·lengthRatio, minus a
flat 0.3 when the prefix run is at least 3 and the suffix run at least 1. -/
theorem C2_weighted_score_formula (word dict_word : List Char) (hw : word ≠ [])
    (_hgate : length_gate_skips word.length dict_word.length = false) :
    weighted_score word dict_word = spec_weighted_score word dict_word := by
  have hwpos : 0 < word.length := List.length_pos.mpr hw
  have hmax : 0 < max word.length dict_word.length :=
    lt_of_lt_of_le hwpos (le_max_left _ _)
  have hmax1 : max word.length 1 = word.length := Nat.max_eq_left hwpos
  simp only [weighted_score, spec_weighted_score, custom_distance]
  rw [phonetic_adjustment_eq, if_pos hmax, if_pos hmax, hmax1]
  split_ifs <;> ring

theorem C2_weighted_score_formula_witness :
    (['ك','ت','ا','ؾ'] ≠ ([] : List Char)) ∧
      length_gate_skips (['ك','ت','ا','ؾ'].length) (['ك','ت','ا','ب'].length) = false ∧
      weighted_score ['ك','ت','ا','ؾ'] ['ك','ت','ا','ب']
        = spec_weighted_score ['ك','ت','ا','ؾ'] ['ك','ت','ا','ب'] :=
  ⟨by decide, by decide,
    C2_weighted_score_formula ['ك','ت','ا','ؾ'] ['ك','ت','ا','ب'] (by decide) (by decide)⟩
